import Mathlib

/-!
Verification of the generic pooled data-access layer (`data_access_object.py`).

The embedding models:
* entities as finite attribute assignments (association lists), matching the
  layer's purely name-based attribute access (`getattr` / `setattr` /
  keyword-argument construction);
* the relational store as an ordered list of rows (store-default order is the
  row order of the list);
* a session-scoped operation as a function from the store to a result record
  that also reports the new store, the number of pool/session acquisitions the
  call performed, and the trace of entities expunged (detached) from the
  session;
* the fire-and-forget path (`_submit_background`) with an explicit future
  value, an error log trace, and the same session accounting;
* the double-checked-lock initialization of the shared background executor as
  an interleaving transition system over per-thread program counters.
-/

namespace DAOSpec

/-- Attribute (column) names of an entity. -/
abbrev Field := String

/-- Attribute values. -/
abbrev Val := Int

/-- An ORM entity instance: a finite assignment of attribute names to values.
The layer only ever touches entities through attribute names, so an
association list is a faithful model; the first binding for a name wins. -/
abbrev Entity := List (Field × Val)

/-- Keyword-argument / filter mappings (`**fields`, `**filters`). -/
abbrev Fields := List (Field × Val)

/-- The relational store: an ordered list of rows.  The list order is the
store-default row order seen by unsorted queries. -/
abbrev Store := List Entity

/-- Python `getattr(e, a)` on the modelled entity: first binding for `a`. -/
def getattr : Entity → Field → Option Val
  | [], _ => none
  | (k, v) :: rest, a => if k = a then some v else getattr rest a

/-- Python `setattr(e, a, v)` (and dict item assignment): replace the binding
for `a` if present, otherwise append it. -/
def setattr : Entity → Field → Val → Entity
  | [], a, v => [(a, v)]
  | (k, w) :: rest, a, v =>
    if k = a then (a, v) :: rest else (k, w) :: setattr rest a v

/-- Python `dict.update` / the `setattr` loop of `update` and `upsert`: apply
the bindings of `fs` in order, later entries overriding earlier ones. -/
def dictUpdate (e : Entity) (fs : Fields) : Entity :=
  fs.foldl (fun acc kv => setattr acc kv.1 kv.2) e

/-- DataAccessObject configuration: the primary-key attribute name
(`primary_key_attribute_name`, default `"id"` in the source) and the concrete
subclass name used to name the logger (`self.__class__.__name__`). -/
structure DAO where
  primary_key_attribute_name : Field
  className : String

/-- Predicate selecting the rows whose primary-key attribute equals `k`
(the `pk_col == id_value` filter and the `session.get` identity lookup). -/
def pkMatches (d : DAO) (k : Val) (r : Entity) : Bool :=
  getattr r d.primary_key_attribute_name == some k

/-- SQLAlchemy `session.get(model, id_value)`: primary-key lookup returning
the first matching row. -/
def sessionGet (d : DAO) (s : Store) (k : Val) : Option Entity :=
  s.find? (pkMatches d k)

/-- Result of running one session-scoped operation: the returned value, the
store after the operation, the number of sessions acquired from the pool
during the call, and the entities expunged (detached) before being returned. -/
structure SessOut (α : Type) where
  value : α
  store : Store
  sessions : Nat
  expunged : List Entity

/-- A session-scoped operation, as passed to `_run_in_session`. -/
abbrev SessM (α : Type) := Store → SessOut α

/-- Model of `_run_in_session` / `session_scope`: acquire one session from
the pool, run `fn` inside it, release it.  The acquisition count of the call
is one more than whatever `fn` itself acquired (a nested call re-enters the
pool). -/
def run_in_session {α : Type} (fn : SessM α) : SessM α :=
  fun s =>
    let o := fn s
    { o with sessions := o.sessions + 1 }

/-- Replace the first element satisfying `p` by its image under `f`
(mutating the attached instance found by `session.get`). -/
def updateFirst {α : Type} (p : α → Bool) (f : α → α) : List α → List α
  | [] => []
  | x :: xs => if p x then f x :: xs else x :: updateFirst p f xs

/-- Remove the first element satisfying `p` (`session.delete` on the row
found by `session.get`). -/
def removeFirst {α : Type} (p : α → Bool) : List α → List α
  | [] => []
  | x :: xs => if p x then xs else x :: removeFirst p xs

/-- Row filter for `filter_by(**filters)`: conjunction of attribute
equalities. -/
def matchesFilters (r : Entity) (fs : Fields) : Bool :=
  fs.all (fun kv => getattr r kv.1 == some kv.2)

/-- Insert into a sorted list, used to model `order_by`. -/
def insertOrdered (le : Entity → Entity → Bool) (x : Entity) :
    List Entity → List Entity
  | [] => [x]
  | y :: ys => if le x y then x :: y :: ys else y :: insertOrdered le x ys

/-- Stable sort modelling the `order_by` clause. -/
def sortEntities (le : Entity → Entity → Bool) : List Entity → List Entity
  | [] => []
  | x :: xs => insertOrdered le x (sortEntities le xs)

/-- DAO `get`: `session.get` by primary key, expunge the row if found. -/
def DAO.get (d : DAO) (k : Val) : SessM (Option Entity) :=
  run_in_session (fun s =>
    match sessionGet d s k with
    | none => { value := none, store := s, sessions := 0, expunged := [] }
    | some row =>
      { value := some row, store := s, sessions := 0, expunged := [row] })

/-- DAO `list`: paginated query; `offset` applied when `offset > 0`,
`limit` applied when `limit > 0`; every returned row expunged. -/
def DAO.list (d : DAO) (limit offset : Int) : SessM (List Entity) :=
  run_in_session (fun s =>
    let q := s
    let q := if offset > 0 then q.drop offset.toNat else q
    let q := if limit > 0 then q.take limit.toNat else q
    { value := q, store := s, sessions := 0, expunged := q })

/-- DAO `list_by`: equality filters, then the same pagination as `list`. -/
def DAO.list_by (d : DAO) (limit offset : Int) (filters : Fields) :
    SessM (List Entity) :=
  run_in_session (fun s =>
    let q := s.filter (fun r => matchesFilters r filters)
    let q := if offset > 0 then q.drop offset.toNat else q
    let q := if limit > 0 then q.take limit.toNat else q
    { value := q, store := s, sessions := 0, expunged := q })

/-- DAO `list_by_order_by`: filters, explicit sort, then pagination. -/
def DAO.list_by_order_by (d : DAO) (order_by : Entity → Entity → Bool)
    (limit offset : Int) (filters : Fields) : SessM (List Entity) :=
  run_in_session (fun s =>
    let q := sortEntities order_by (s.filter (fun r => matchesFilters r filters))
    let q := if offset > 0 then q.drop offset.toNat else q
    let q := if limit > 0 then q.take limit.toNat else q
    { value := q, store := s, sessions := 0, expunged := q })

/-- DAO `exists`: `query(model).filter(pk_col == id_value).first()`,
expunging the row if found. -/
def DAO.«exists» (d : DAO) (k : Val) : SessM (Option Entity) :=
  run_in_session (fun s =>
    match (s.filter (pkMatches d k)).head? with
    | none => { value := none, store := s, sessions := 0, expunged := [] }
    | some res =>
      { value := some res, store := s, sessions := 0, expunged := [res] })

/-- DAO `create`: construct the row from the keyword arguments, add it,
flush/refresh, expunge, return it. -/
def DAO.create (d : DAO) (fields : Fields) : SessM Entity :=
  run_in_session (fun s =>
    let row := fields
    { value := row, store := s ++ [row], sessions := 0, expunged := [row] })

/-- DAO `update`: look the row up by primary key; if absent return `none`;
otherwise apply the given fields with `setattr`, flush, expunge, return. -/
def DAO.update (d : DAO) (k : Val) (fields : Fields) :
    SessM (Option Entity) :=
  run_in_session (fun s =>
    match sessionGet d s k with
    | none => { value := none, store := s, sessions := 0, expunged := [] }
    | some row =>
      let row2 := dictUpdate row fields
      { value := some row2,
        store := updateFirst (pkMatches d k) (fun r => dictUpdate r fields) s,
        sessions := 0, expunged := [row2] })

/-- DAO `upsert`: look the row up by primary key; if absent, build
`row_data = dict having the primary key set to id_value, then updated with fields`
and insert it; if present, apply the fields as a partial update.  Either way
the resulting row is expunged and returned. -/
def DAO.upsert (d : DAO) (k : Val) (fields : Fields) : SessM Entity :=
  run_in_session (fun s =>
    match sessionGet d s k with
    | none =>
      let row_data := dictUpdate [(d.primary_key_attribute_name, k)] fields
      { value := row_data, store := s ++ [row_data], sessions := 0,
        expunged := [row_data] }
    | some row =>
      let row2 := dictUpdate row fields
      { value := row2,
        store := updateFirst (pkMatches d k) (fun r => dictUpdate r fields) s,
        sessions := 0, expunged := [row2] })

/-- DAO `delete`: look the row up by primary key; absent means `false` and
no write; present means the row is deleted and `true` returned. -/
def DAO.delete (d : DAO) (k : Val) : SessM Bool :=
  run_in_session (fun s =>
    match sessionGet d s k with
    | none => { value := false, store := s, sessions := 0, expunged := [] }
    | some _ =>
      { value := true, store := removeFirst (pkMatches d k) s,
        sessions := 0, expunged := [] })

/-- Error values carried by failed background operations. -/
abbrev Err := String

/-- A session-scoped operation that may raise. -/
abbrev SessME (α : Type) := Store → SessOut (Except Err α)

/-- Outcome of a fire-and-forget submission: what the returned future
resolves to, the error-log entries `(logger name, error)` emitted eagerly by
the background runner, plus the store and session accounting. -/
structure BgOutcome (α : Type) where
  future : Except Err α
  logged : List (String × Err)
  store : Store
  sessions : Nat
  expunged : List Entity

/-- Lift an operation that cannot raise into the raising type. -/
def okOp {α : Type} (fn : SessM α) : SessME α :=
  fun s =>
    let o := fn s
    ⟨Except.ok o.value, o.store, o.sessions, o.expunged⟩

/-- Model of `_submit_background`: the runner executes
`self._run_in_session(fn)`; on success the future resolves to the result with
nothing logged; on an exception the error is logged with the originating DAO
subclass's name and re-raised into the future. -/
def submit_background {α : Type} (loggerName : String) (fn : SessME α)
    (s : Store) : BgOutcome α :=
  let o := run_in_session fn s
  match o.value with
  | Except.ok a =>
    { future := Except.ok a, logged := [], store := o.store,
      sessions := o.sessions, expunged := o.expunged }
  | Except.error e =>
    { future := Except.error e, logged := [(loggerName, e)], store := o.store,
      sessions := o.sessions, expunged := o.expunged }

/-- DAO `create_ff`: its own inline `_write` (same body as `create`),
submitted to the background executor. -/
def DAO.create_ff (d : DAO) (fields : Fields) (s : Store) :
    BgOutcome Entity :=
  submit_background d.className
    (okOp (fun st =>
      let row := fields
      { value := row, store := st ++ [row], sessions := 0,
        expunged := [row] })) s

/-- DAO `update_ff`: submits `lambda session: self.update(id_value, **fields)`;
the lambda ignores the session handed to it and the nested synchronous
`update` acquires its own session. -/
def DAO.update_ff (d : DAO) (k : Val) (fields : Fields) (s : Store) :
    BgOutcome (Option Entity) :=
  submit_background d.className (okOp (fun st => DAO.update d k fields st)) s

/-- DAO `upsert_ff`: submits `lambda session: self.upsert(id_value, **fields)`;
like `update_ff`, the nested synchronous `upsert` acquires its own session. -/
def DAO.upsert_ff (d : DAO) (k : Val) (fields : Fields) (s : Store) :
    BgOutcome Entity :=
  submit_background d.className (okOp (fun st => DAO.upsert d k fields st)) s

/-- DAO `delete_ff`: its own inline `_write` (same body as `delete`),
submitted to the background executor. -/
def DAO.delete_ff (d : DAO) (k : Val) (s : Store) : BgOutcome Bool :=
  submit_background d.className
    (okOp (fun st =>
      match sessionGet d st k with
      | none => { value := false, store := st, sessions := 0, expunged := [] }
      | some _ =>
        { value := true, store := removeFirst (pkMatches d k) st,
          sessions := 0, expunged := [] })) s

/-- Python `(os.cpu_count() or 1)`: `None` (and the falsy `0`) give `1`. -/
def pyOr (cpu : Option Nat) : Nat :=
  match cpu with
  | none => 1
  | some n => if n = 0 then 1 else n

/-- Worker-count computation of `_get_bg_executor`:
`max_workers = max(4, (os.cpu_count() or 1))`. -/
def max_workers (cpu : Option Nat) : Nat := max 4 (pyOr cpu)

/-!
Interleaving model of `_get_bg_executor`'s double-checked lock.  Each thread
runs the program

```
start:    if _bg_executor is not None: return it          (fastHit / fastMiss)
waitLock: acquire _bg_lock                                 (acquire)
held:     if _bg_executor is not None: skip create         (checkHit / checkMiss)
creating: _bg_executor = ThreadPoolExecutor(max_workers)   (createExec)
release:  release _bg_lock                                 (releaseLock)
reading:  return _bg_executor                              (readExec)
```

with every line an atomic step; the scheduler interleaves threads
arbitrarily.  The executor is identified by its worker count, and `created`
counts how many executor constructions have been performed (the observable
initialization side effect).
-/

/-- Program counter of one thread inside `_get_bg_executor`. -/
inductive PC where
  | start
  | waitLock
  | held
  | creating
  | release
  | reading
  | ret (w : Nat)
deriving DecidableEq, Repr

/-- Shared state of the double-checked-lock system: the class-level
`_bg_executor` (by worker count), the `_bg_lock`, the number of executor
constructions performed so far, and every thread's program counter. -/
structure ExecState where
  exec : Option Nat
  lock : Bool
  created : Nat
  pcs : List PC
deriving DecidableEq, Repr

/-- Whether a program counter is inside the lock-protected critical
section. -/
def PC.inCS : PC → Prop := fun pc =>
  pc = PC.held ∨ pc = PC.creating ∨ pc = PC.release

/-- One atomic step of one thread of `_get_bg_executor`, with host
parallelism `cpu`. -/
inductive DCLStep (cpu : Option Nat) : ExecState → ExecState → Prop where
  | fastHit (i : Nat) (w : Nat) (s : ExecState)
      (hpc : s.pcs.get? i = some PC.start) (hex : s.exec = some w) :
      DCLStep cpu s { s with pcs := s.pcs.set i (PC.ret w) }
  | fastMiss (i : Nat) (s : ExecState)
      (hpc : s.pcs.get? i = some PC.start) (hex : s.exec = none) :
      DCLStep cpu s { s with pcs := s.pcs.set i PC.waitLock }
  | acquire (i : Nat) (s : ExecState)
      (hpc : s.pcs.get? i = some PC.waitLock) (hl : s.lock = false) :
      DCLStep cpu s { s with lock := true, pcs := s.pcs.set i PC.held }
  | checkHit (i : Nat) (w : Nat) (s : ExecState)
      (hpc : s.pcs.get? i = some PC.held) (hex : s.exec = some w) :
      DCLStep cpu s { s with pcs := s.pcs.set i PC.release }
  | checkMiss (i : Nat) (s : ExecState)
      (hpc : s.pcs.get? i = some PC.held) (hex : s.exec = none) :
      DCLStep cpu s { s with pcs := s.pcs.set i PC.creating }
  | createExec (i : Nat) (s : ExecState)
      (hpc : s.pcs.get? i = some PC.creating) :
      DCLStep cpu s { s with exec := some (max_workers cpu),
                             created := s.created + 1,
                             pcs := s.pcs.set i PC.release }
  | releaseLock (i : Nat) (s : ExecState)
      (hpc : s.pcs.get? i = some PC.release) :
      DCLStep cpu s { s with lock := false, pcs := s.pcs.set i PC.reading }
  | readExec (i : Nat) (w : Nat) (s : ExecState)
      (hpc : s.pcs.get? i = some PC.reading) (hex : s.exec = some w) :
      DCLStep cpu s { s with pcs := s.pcs.set i (PC.ret w) }

/-- Initial state: no executor, lock free, no constructions performed,
`n` threads about to call `_get_bg_executor` for the first time. -/
def dclInit (n : Nat) : ExecState :=
  { exec := none, lock := false, created := 0, pcs := List.replicate n PC.start }

/-- Reachability of a state from the `n`-thread initial state under
arbitrary interleavings. -/
def Reachable (cpu : Option Nat) (n : Nat) (s : ExecState) : Prop :=
  Relation.ReflTransGen (DCLStep cpu) (dclInit n) s

/-- Distinct primary keys: no two rows of the store share a primary-key
value (the primary-key uniqueness constraint of a relational store). -/
def StoreKeysDistinct (d : DAO) (s : Store) : Prop :=
  s.Pairwise (fun r r' =>
    getattr r d.primary_key_attribute_name ≠
      getattr r' d.primary_key_attribute_name)

/-- Inductive invariant of the double-checked-lock system: mutual exclusion
of the critical section, an unheld lock means nobody is inside it, a thread
about to construct the executor has observed it to be absent, at most one
construction is ever performed (and it installs `max_workers cpu` workers),
and every returned executor is the installed one. -/
structure DCLInv (cpu : Option Nat) (s : ExecState) : Prop where
  mutex : ∀ i j pi pj, s.pcs.get? i = some pi → pi.inCS →
    s.pcs.get? j = some pj → pj.inCS → i = j
  unlocked : s.lock = false → ∀ i pi, s.pcs.get? i = some pi → ¬ pi.inCS
  creating_none : ∀ i, s.pcs.get? i = some PC.creating → s.exec = none
  once : (s.created = 0 ∧ s.exec = none) ∨
    (s.created = 1 ∧ s.exec = some (max_workers cpu))
  ret_exec : ∀ i w, s.pcs.get? i = some (PC.ret w) → s.exec = some w

/-- Concrete DAO used by the witnesses: default primary key `"id"`, a
subclass named `UserDAO`. -/
def dao0 : DAO := ⟨"id", "UserDAO"⟩

/-- Background operation that always raises, exercising the error path of
`_submit_background`. -/
def failOp : SessME Unit := fun s => ⟨Except.error "boom", s, 0, []⟩

/-- Caller-side mutation of a detached snapshot, used by the detachment
witness. -/
def bumpX : Entity → Entity := fun e => setattr e "x" 9

/-- Final state of a complete single-thread run of `_get_bg_executor`. -/
def execFinal : ExecState :=
  { exec := some 4, lock := false, created := 1, pcs := [PC.ret 4] }

/-- Reading an index of a list after a `set`: either it is the written
index, or the read passes through unchanged. -/
theorem get?_set_cases {α : Type} {l : List α} {i j : Nat} {a : α} {pj : α}
    (h : (l.set i a).get? j = some pj) :
    (j = i ∧ pj = a) ∨ (j ≠ i ∧ l.get? j = some pj) := by
  by_cases hji : j = i
  · subst hji
    have hlen : j < l.length := by
      have := (List.get?_eq_some.mp h).1
      simpa using this
    rw [List.get?_set_eq_of_lt a hlen] at h
    exact Or.inl ⟨rfl, (Option.some_inj.mp h).symm⟩
  · exact Or.inr ⟨hji, by rwa [List.get?_set_ne a l (Ne.symm hji)] at h⟩

/-- The initial state satisfies the invariant. -/
theorem dclInit_inv (cpu : Option Nat) (n : Nat) : DCLInv cpu (dclInit n) := by
  have hst : ∀ i pi, (dclInit n).pcs.get? i = some pi → pi = PC.start := by
    intro i pi h
    exact List.eq_of_mem_replicate (List.get?_mem h)
  refine ⟨?_, ?_, ?_, Or.inl ⟨rfl, rfl⟩, ?_⟩
  · intro i j pi pj hi hics _ _
    cases hst i pi hi
    simp [PC.inCS] at hics
  · intro _ i pi hi
    cases hst i pi hi
    simp [PC.inCS]
  · intro i hi
    cases hst i PC.creating hi
  · intro i w hi
    cases hst i (PC.ret w) hi

/-- Every atomic step preserves the invariant. -/
theorem dclInv_step {cpu : Option Nat} {s s' : ExecState}
    (h : DCLInv cpu s) (hs : DCLStep cpu s s') : DCLInv cpu s' := by
  cases hs with
  | fastHit i w s hpc hex =>
    refine ⟨?_, ?_, ?_, h.once, ?_⟩
    · intro a b pa pb ha hacs hb hbcs
      rcases get?_set_cases ha with ⟨rfl, rfl⟩ | ⟨_, ha'⟩
      · simp [PC.inCS] at hacs
      rcases get?_set_cases hb with ⟨rfl, rfl⟩ | ⟨_, hb'⟩
      · simp [PC.inCS] at hbcs
      exact h.mutex a b pa pb ha' hacs hb' hbcs
    · intro hl a pa ha
      rcases get?_set_cases ha with ⟨rfl, rfl⟩ | ⟨_, ha'⟩
      · simp [PC.inCS]
      exact h.unlocked hl a pa ha'
    · intro a ha
      rcases get?_set_cases ha with ⟨rfl, hcontra⟩ | ⟨_, ha'⟩
      · cases hcontra
      exact h.creating_none a ha'
    · intro a w' ha
      rcases get?_set_cases ha with ⟨rfl, hw⟩ | ⟨_, ha'⟩
      · cases hw; exact hex
      exact h.ret_exec a w' ha'
  | fastMiss i s hpc hex =>
    refine ⟨?_, ?_, ?_, h.once, ?_⟩
    · intro a b pa pb ha hacs hb hbcs
      rcases get?_set_cases ha with ⟨rfl, rfl⟩ | ⟨_, ha'⟩
      · simp [PC.inCS] at hacs
      rcases get?_set_cases hb with ⟨rfl, rfl⟩ | ⟨_, hb'⟩
      · simp [PC.inCS] at hbcs
      exact h.mutex a b pa pb ha' hacs hb' hbcs
    · intro hl a pa ha
      rcases get?_set_cases ha with ⟨rfl, rfl⟩ | ⟨_, ha'⟩
      · simp [PC.inCS]
      exact h.unlocked hl a pa ha'
    · intro a ha
      rcases get?_set_cases ha with ⟨rfl, hcontra⟩ | ⟨_, ha'⟩
      · cases hcontra
      exact h.creating_none a ha'
    · intro a w' ha
      rcases get?_set_cases ha with ⟨rfl, hcontra⟩ | ⟨_, ha'⟩
      · cases hcontra
      exact h.ret_exec a w' ha'
  | acquire i s hpc hl =>
    have hnocs : ∀ a pa, s.pcs.get? a = some pa → ¬ pa.inCS := h.unlocked hl
    refine ⟨?_, ?_, ?_, h.once, ?_⟩
    · intro a b pa pb ha hacs hb hbcs
      rcases get?_set_cases ha with ⟨rfl, rfl⟩ | ⟨_, ha'⟩
      · rcases get?_set_cases hb with ⟨rfl, rfl⟩ | ⟨_, hb'⟩
        · rfl
        · exact absurd hbcs (hnocs b pb hb')
      · exact absurd hacs (hnocs a pa ha')
    · intro hl' _ _ _
      cases hl'
    · intro a ha
      rcases get?_set_cases ha with ⟨rfl, hcontra⟩ | ⟨_, ha'⟩
      · cases hcontra
      exact h.creating_none a ha'
    · intro a w' ha
      rcases get?_set_cases ha with ⟨rfl, hcontra⟩ | ⟨_, ha'⟩
      · cases hcontra
      exact h.ret_exec a w' ha'
  | checkHit i w s hpc hex =>
    refine ⟨?_, ?_, ?_, h.once, ?_⟩
    · intro a b pa pb ha hacs hb hbcs
      rcases get?_set_cases ha with ⟨rfl, rfl⟩ | ⟨hne, ha'⟩
      · rcases get?_set_cases hb with ⟨rfl, rfl⟩ | ⟨_, hb'⟩
        · rfl
        · exact (h.mutex a b PC.held pb hpc (Or.inl rfl) hb' hbcs)
      · rcases get?_set_cases hb with ⟨rfl, rfl⟩ | ⟨_, hb'⟩
        · exact (h.mutex a b pa PC.held ha' hacs hpc (Or.inl rfl))
        · exact h.mutex a b pa pb ha' hacs hb' hbcs
    · intro hl a pa ha
      have : ¬ (PC.held : PC).inCS := h.unlocked hl i PC.held hpc
      simp [PC.inCS] at this
    · intro a ha
      rcases get?_set_cases ha with ⟨rfl, hcontra⟩ | ⟨_, ha'⟩
      · cases hcontra
      exact h.creating_none a ha'
    · intro a w' ha
      rcases get?_set_cases ha with ⟨rfl, hcontra⟩ | ⟨_, ha'⟩
      · cases hcontra
      exact h.ret_exec a w' ha'
  | checkMiss i s hpc hex =>
    refine ⟨?_, ?_, ?_, h.once, ?_⟩
    · intro a b pa pb ha hacs hb hbcs
      rcases get?_set_cases ha with ⟨rfl, rfl⟩ | ⟨hne, ha'⟩
      · rcases get?_set_cases hb with ⟨rfl, rfl⟩ | ⟨_, hb'⟩
        · rfl
        · exact (h.mutex a b PC.held pb hpc (Or.inl rfl) hb' hbcs)
      · rcases get?_set_cases hb with ⟨rfl, rfl⟩ | ⟨_, hb'⟩
        · exact (h.mutex a b pa PC.held ha' hacs hpc (Or.inl rfl))
        · exact h.mutex a b pa pb ha' hacs hb' hbcs
    · intro hl a pa ha
      have : ¬ (PC.held : PC).inCS := h.unlocked hl i PC.held hpc
      simp [PC.inCS] at this
    · intro a ha
      exact hex
    · intro a w' ha
      rcases get?_set_cases ha with ⟨rfl, hcontra⟩ | ⟨_, ha'⟩
      · cases hcontra
      exact h.ret_exec a w' ha'
  | createExec i s hpc =>
    have hexnone : s.exec = none := h.creating_none i hpc
    refine ⟨?_, ?_, ?_, ?_, ?_⟩
    · intro a b pa pb ha hacs hb hbcs
      rcases get?_set_cases ha with ⟨rfl, rfl⟩ | ⟨hne, ha'⟩
      · rcases get?_set_cases hb with ⟨rfl, rfl⟩ | ⟨_, hb'⟩
        · rfl
        · exact (h.mutex a b PC.creating pb hpc (Or.inr (Or.inl rfl)) hb' hbcs)
      · rcases get?_set_cases hb with ⟨rfl, rfl⟩ | ⟨_, hb'⟩
        · exact (h.mutex a b pa PC.creating ha' hacs hpc (Or.inr (Or.inl rfl)))
        · exact h.mutex a b pa pb ha' hacs hb' hbcs
    · intro hl a pa ha
      have hlock : s.lock = false := hl
      have : ¬ (PC.creating : PC).inCS :=
        h.unlocked hlock i PC.creating hpc
      simp [PC.inCS] at this
    · intro a ha
      rcases get?_set_cases ha with ⟨rfl, hcontra⟩ | ⟨hne, ha'⟩
      · cases hcontra
      · exact absurd (h.mutex a i PC.creating PC.creating ha'
          (Or.inr (Or.inl rfl)) hpc (Or.inr (Or.inl rfl))) hne
    · rcases h.once with ⟨hc, _⟩ | ⟨_, hsome⟩
      · exact Or.inr ⟨by simp [hc], rfl⟩
      · rw [hexnone] at hsome; cases hsome
    · intro a w' ha
      rcases get?_set_cases ha with ⟨rfl, hcontra⟩ | ⟨_, ha'⟩
      · cases hcontra
      · have := h.ret_exec a w' ha'
        rw [hexnone] at this; cases this
  | releaseLock i s hpc =>
    refine ⟨?_, ?_, ?_, h.once, ?_⟩
    · intro a b pa pb ha hacs hb hbcs
      rcases get?_set_cases ha with ⟨rfl, rfl⟩ | ⟨_, ha'⟩
      · simp [PC.inCS] at hacs
      rcases get?_set_cases hb with ⟨rfl, rfl⟩ | ⟨_, hb'⟩
      · simp [PC.inCS] at hbcs
      exact h.mutex a b pa pb ha' hacs hb' hbcs
    · intro _ a pa ha
      rcases get?_set_cases ha with ⟨rfl, rfl⟩ | ⟨hne, ha'⟩
      · simp [PC.inCS]
      · intro hacs
        exact hne (h.mutex a i pa PC.release ha' hacs hpc
          (Or.inr (Or.inr rfl)))
    · intro a ha
      rcases get?_set_cases ha with ⟨rfl, hcontra⟩ | ⟨_, ha'⟩
      · cases hcontra
      exact h.creating_none a ha'
    · intro a w' ha
      rcases get?_set_cases ha with ⟨rfl, hcontra⟩ | ⟨_, ha'⟩
      · cases hcontra
      exact h.ret_exec a w' ha'
  | readExec i w s hpc hex =>
    refine ⟨?_, ?_, ?_, h.once, ?_⟩
    · intro a b pa pb ha hacs hb hbcs
      rcases get?_set_cases ha with ⟨rfl, rfl⟩ | ⟨_, ha'⟩
      · simp [PC.inCS] at hacs
      rcases get?_set_cases hb with ⟨rfl, rfl⟩ | ⟨_, hb'⟩
      · simp [PC.inCS] at hbcs
      exact h.mutex a b pa pb ha' hacs hb' hbcs
    · intro hl a pa ha
      rcases get?_set_cases ha with ⟨rfl, rfl⟩ | ⟨_, ha'⟩
      · simp [PC.inCS]
      exact h.unlocked hl a pa ha'
    · intro a ha
      rcases get?_set_cases ha with ⟨rfl, hcontra⟩ | ⟨_, ha'⟩
      · cases hcontra
      exact h.creating_none a ha'
    · intro a w' ha
      rcases get?_set_cases ha with ⟨rfl, hw⟩ | ⟨_, ha'⟩
      · cases hw; exact hex
      exact h.ret_exec a w' ha'

/-- The invariant holds in every reachable state. -/
theorem dclInv_reachable {cpu : Option Nat} {n : Nat} {s : ExecState}
    (h : Reachable cpu n s) : DCLInv cpu s := by
  induction h with
  | refl => exact dclInit_inv cpu n
  | tail _ hstep ih => exact dclInv_step ih hstep

/-!  Helper lemmas about the entity and store primitives. -/

/-- Unfolding `dictUpdate` one binding at a time. -/
theorem dictUpdate_cons (e : Entity) (kv : Field × Val) (fs : Fields) :
    dictUpdate e (kv :: fs) = dictUpdate (setattr e kv.1 kv.2) fs := rfl

/-- Reading back an attribute just written by `setattr`. -/
theorem getattr_setattr_self (e : Entity) (a : Field) (v : Val) :
    getattr (setattr e a v) a = some v := by
  induction e with
  | nil => simp [setattr, getattr]
  | cons kv rest ih =>
    by_cases hk : kv.1 = a
    · simp [setattr, hk, getattr]
    · simp [setattr, hk, getattr, ih]

/-- `setattr` leaves other attributes untouched. -/
theorem getattr_setattr_ne (e : Entity) (a b : Field) (v : Val)
    (h : b ≠ a) : getattr (setattr e a v) b = getattr e b := by
  induction e with
  | nil => simp [setattr, getattr, Ne.symm h]
  | cons kv rest ih =>
    by_cases hk : kv.1 = a
    · subst hk
      simp [setattr, getattr, Ne.symm h, h]
    · by_cases hb : kv.1 = b
      · simp [setattr, getattr, hk, hb, h]
      · simp [setattr, getattr, hk, hb, ih]

/-- Attributes not named in the field mapping are unchanged by
`dictUpdate`. -/
theorem getattr_dictUpdate_not_mem (e : Entity) (fs : Fields) (a : Field)
    (h : a ∉ fs.map Prod.fst) : getattr (dictUpdate e fs) a = getattr e a := by
  induction fs generalizing e with
  | nil => rfl
  | cons kv rest ih =>
    rw [List.map_cons, List.mem_cons, not_or] at h
    rw [dictUpdate_cons, ih _ h.2, getattr_setattr_ne _ _ _ _ h.1]

/-- With distinct keys, an attribute named in the field mapping reads back
as the mapped value after `dictUpdate`. -/
theorem getattr_dictUpdate_lookup (e : Entity) (fs : Fields) (a : Field)
    (v : Val) (hnd : (fs.map Prod.fst).Nodup) (hl : fs.lookup a = some v) :
    getattr (dictUpdate e fs) a = some v := by
  induction fs generalizing e with
  | nil => cases hl
  | cons kv rest ih =>
    obtain ⟨k1, v1⟩ := kv
    rw [List.map_cons, List.nodup_cons] at hnd
    rw [dictUpdate_cons]
    by_cases hk : a = k1
    · subst hk
      have hv : v1 = v := by
        simp [List.lookup] at hl
        exact hl
      rw [getattr_dictUpdate_not_mem _ _ _ hnd.1, getattr_setattr_self, hv]
    · have hl' : rest.lookup a = some v := by
        simp only [List.lookup] at hl
        rwa [show (a == k1) = false from beq_eq_false_iff_ne.mpr hk] at hl
      exact ih (setattr e k1 v1) hnd.2 hl'

/-- Taking the head of a filtered list is the same as `find?`. -/
theorem filter_head?_eq_find? {α : Type} (p : α → Bool) (l : List α) :
    (l.filter p).head? = l.find? p := by
  induction l with
  | nil => rfl
  | cons x xs ih =>
    cases hx : p x
    · simp [List.filter_cons, List.find?_cons, hx, ih]
    · simp [List.filter_cons, List.find?_cons, hx]

/-- Deleting the row found for key `k` in a store with distinct primary
keys leaves no row with key `k`. -/
theorem sessionGet_removeFirst_none (d : DAO) (k : Val) (s : Store)
    (hd : StoreKeysDistinct d s) (r : Entity)
    (h : sessionGet d s k = some r) :
    sessionGet d (removeFirst (pkMatches d k) s) k = none := by
  induction s with
  | nil => cases h
  | cons x xs ih =>
    unfold StoreKeysDistinct at hd
    rw [List.pairwise_cons] at hd
    cases hx : pkMatches d k x
    · have hrest : sessionGet d xs k = some r := by
        unfold sessionGet at h ⊢
        rwa [List.find?_cons, hx] at h
      unfold sessionGet at ih ⊢
      rw [removeFirst, hx]
      simp only [Bool.false_eq_true, if_false]
      rw [List.find?_cons, hx]
      exact ih hd.2 hrest
    · have hxk : getattr x d.primary_key_attribute_name = some k := by
        have := hx
        unfold pkMatches at this
        exact beq_iff_eq.mp this
      rw [removeFirst, hx]
      simp only [if_true]
      unfold sessionGet
      rw [List.find?_eq_none]
      intro y hy
      have hne := hd.1 y hy
      unfold pkMatches
      rw [hxk] at hne
      simpa using fun hcontra => hne (beq_iff_eq.mp hcontra).symm

/-- Running through `_run_in_session` adds exactly one session acquisition
to whatever the wrapped operation itself acquires. -/
theorem run_in_session_sessions {α : Type} (fn : SessM α) (s : Store) :
    (run_in_session fn s).sessions = (fn s).sessions + 1 := rfl

/-- Session count of `get`. -/
theorem get_sessions (d : DAO) (k : Val) (s : Store) :
    (DAO.get d k s).sessions = 1 := by
  unfold DAO.get run_in_session
  cases h : sessionGet d s k <;> simp [h]

/-- Session count of `exists`. -/
theorem exists_sessions (d : DAO) (k : Val) (s : Store) :
    (DAO.«exists» d k s).sessions = 1 := by
  unfold DAO.«exists» run_in_session
  cases h : (s.filter (pkMatches d k)).head? <;> simp [h]

/-- Session count of `update`. -/
theorem update_sessions (d : DAO) (k : Val) (fields : Fields) (s : Store) :
    (DAO.update d k fields s).sessions = 1 := by
  unfold DAO.update run_in_session
  cases h : sessionGet d s k <;> simp [h]

/-- Session count of `upsert`. -/
theorem upsert_sessions (d : DAO) (k : Val) (fields : Fields) (s : Store) :
    (DAO.upsert d k fields s).sessions = 1 := by
  unfold DAO.upsert run_in_session
  cases h : sessionGet d s k <;> simp [h]

/-- Session count of `delete`. -/
theorem delete_sessions (d : DAO) (k : Val) (s : Store) :
    (DAO.delete d k s).sessions = 1 := by
  unfold DAO.delete run_in_session
  cases h : sessionGet d s k <;> simp [h]

/-- Session count of `delete_ff`. -/
theorem delete_ff_sessions (d : DAO) (k : Val) (s : Store) :
    (DAO.delete_ff d k s).sessions = 1 := by
  unfold DAO.delete_ff submit_background okOp run_in_session
  cases h : sessionGet d s k <;> simp [h]

/-- Session count of `update_ff`: the background wrapper session plus the
one acquired by the nested synchronous `update`. -/
theorem update_ff_sessions (d : DAO) (k : Val) (fields : Fields) (s : Store) :
    (DAO.update_ff d k fields s).sessions = 2 := by
  show (DAO.update d k fields s).sessions + 1 = 2
  rw [update_sessions]

/-- Session count of `upsert_ff`: the background wrapper session plus the
one acquired by the nested synchronous `upsert`. -/
theorem upsert_ff_sessions (d : DAO) (k : Val) (fields : Fields) (s : Store) :
    (DAO.upsert_ff d k fields s).sessions = 2 := by
  show (DAO.upsert d k fields s).sessions + 1 = 2
  rw [upsert_sessions]

/-- C1 counterexample: `update_ff` (and `upsert_ff`) acquire two sessions
per invocation, not one — the background runner wraps the submitted lambda
in `_run_in_session`, and the lambda then calls the synchronous
`update`/`upsert`, which opens its own second session. -/
theorem C1_counterexample :
    ¬ ((DAO.update_ff ⟨"id", "UserDAO"⟩ 1 [] []).sessions = 1 ∧
       (DAO.upsert_ff ⟨"id", "UserDAO"⟩ 1 [] []).sessions = 1) := by
  intro h
  have h2 : (DAO.update_ff (⟨"id", "UserDAO"⟩ : DAO) 1 [] []).sessions = 2 :=
    update_ff_sessions _ 1 [] []
  rw [h2] at h
  exact absurd h.1 (by decide)

/-- C1 (amended): every public DAO operation acquires exactly one session
per invocation, except `update_ff` and `upsert_ff`, which acquire exactly
two — one wrapper session opened by the background runner around the
submitted lambda, plus one opened by the nested synchronous
`update`/`upsert` call. -/
theorem C1_sessions_per_invocation (d : DAO) (k : Val) (limit offset : Int)
    (ord : Entity → Entity → Bool) (filters fields : Fields) (s : Store) :
    (DAO.get d k s).sessions = 1 ∧
    (DAO.list d limit offset s).sessions = 1 ∧
    (DAO.list_by d limit offset filters s).sessions = 1 ∧
    (DAO.list_by_order_by d ord limit offset filters s).sessions = 1 ∧
    (DAO.«exists» d k s).sessions = 1 ∧
    (DAO.create d fields s).sessions = 1 ∧
    (DAO.update d k fields s).sessions = 1 ∧
    (DAO.upsert d k fields s).sessions = 1 ∧
    (DAO.delete d k s).sessions = 1 ∧
    (DAO.create_ff d fields s).sessions = 1 ∧
    (DAO.delete_ff d k s).sessions = 1 ∧
    (DAO.update_ff d k fields s).sessions = 2 ∧
    (DAO.upsert_ff d k fields s).sessions = 2 :=
  ⟨get_sessions d k s, rfl, rfl, rfl, exists_sessions d k s, rfl,
   update_sessions d k fields s, upsert_sessions d k fields s,
   delete_sessions d k s, rfl, delete_ff_sessions d k s,
   update_ff_sessions d k fields s, upsert_ff_sessions d k fields s⟩

/-- C8: `exists` and `get` have the same read contract — on every store
and key they return the same (detached) result, leave the store unchanged
in the same way, and detach the same entities. -/
theorem C8_exists_equals_get (d : DAO) (k : Val) (s : Store) :
    (DAO.«exists» d k s).value = (DAO.get d k s).value ∧
    (DAO.«exists» d k s).store = (DAO.get d k s).store ∧
    (DAO.«exists» d k s).expunged = (DAO.get d k s).expunged := by
  have hh : (s.filter (pkMatches d k)).head? = sessionGet d s k :=
    filter_head?_eq_find? (pkMatches d k) s
  unfold DAO.«exists» DAO.get run_in_session
  cases h : sessionGet d s k <;> simp [hh, h]

/-- Unfolded value of `list`. -/
theorem list_value (d : DAO) (limit offset : Int) (s : Store) :
    (DAO.list d limit offset s).value =
      (if limit > 0
        then (if offset > 0 then s.drop offset.toNat else s).take limit.toNat
        else (if offset > 0 then s.drop offset.toNat else s)) := rfl

/-- C7: `list` pagination — a non-positive `limit` means no row limit, a
non-positive `offset` means no skipped rows; with both positive the first
`offset` rows are skipped and at most `limit` rows are returned, in the
store-default row order. -/
theorem C7_list_pagination (d : DAO) (limit offset : Int) (s : Store) :
    ((limit ≤ 0 ∧ offset ≤ 0) → (DAO.list d limit offset s).value = s) ∧
    ((limit ≤ 0 ∧ 0 < offset) →
      (DAO.list d limit offset s).value = s.drop offset.toNat) ∧
    ((0 < limit ∧ offset ≤ 0) →
      (DAO.list d limit offset s).value = s.take limit.toNat) ∧
    ((0 < limit ∧ 0 < offset) →
      (DAO.list d limit offset s).value =
        (s.drop offset.toNat).take limit.toNat) ∧
    (0 < limit → (DAO.list d limit offset s).value.length ≤ limit.toNat) ∧
    (DAO.list d limit offset s).value.Sublist s := by
  refine ⟨?_, ?_, ?_, ?_, ?_, ?_⟩
  · rintro ⟨hl, ho⟩
    rw [list_value, if_neg (not_lt.mpr hl), if_neg (not_lt.mpr ho)]
  · rintro ⟨hl, ho⟩
    rw [list_value, if_neg (not_lt.mpr hl), if_pos ho]
  · rintro ⟨hl, ho⟩
    rw [list_value, if_pos hl, if_neg (not_lt.mpr ho)]
  · rintro ⟨hl, ho⟩
    rw [list_value, if_pos hl, if_pos ho]
  · intro hl
    rw [list_value, if_pos hl]
    split
    · exact (List.length_take _ _).trans_le (min_le_left _ _)
    · exact (List.length_take _ _).trans_le (min_le_left _ _)
  · rw [list_value]
    have h1 : (if offset > 0 then s.drop offset.toNat else s).Sublist s := by
      split
      · exact List.drop_sublist _ _
      · exact List.Sublist.refl s
    split
    · exact (List.take_sublist _ _).trans h1
    · exact h1

/-- C2: `upsert` first looks the row up by primary key.  If the key is
absent it inserts a fresh record built from the primary-key binding followed
by the given fields (the key is caller-supplied); if present it applies
exactly the given fields as a partial update.  Either way the resulting
entity is detached and returned. -/
theorem C2_upsert_semantics (d : DAO) (k : Val) (f : Fields) (s : Store) :
    (sessionGet d s k = none →
      (DAO.upsert d k f s).value =
        dictUpdate [(d.primary_key_attribute_name, k)] f ∧
      (DAO.upsert d k f s).store =
        s ++ [dictUpdate [(d.primary_key_attribute_name, k)] f] ∧
      (d.primary_key_attribute_name ∉ f.map Prod.fst →
        getattr (DAO.upsert d k f s).value d.primary_key_attribute_name =
          some k) ∧
      (DAO.upsert d k f s).value ∈ (DAO.upsert d k f s).expunged) ∧
    (∀ row, sessionGet d s k = some row →
      (DAO.upsert d k f s).value = dictUpdate row f ∧
      (DAO.upsert d k f s).store =
        updateFirst (pkMatches d k) (fun r => dictUpdate r f) s ∧
      (∀ a, a ∉ f.map Prod.fst →
        getattr (DAO.upsert d k f s).value a = getattr row a) ∧
      (DAO.upsert d k f s).value ∈ (DAO.upsert d k f s).expunged) := by
  constructor
  · intro habs
    unfold DAO.upsert run_in_session
    simp only [habs]
    refine ⟨trivial, trivial, ?_, ?_⟩
    · intro hnm
      rw [getattr_dictUpdate_not_mem _ _ _ hnm]
      simp [getattr]
    · simp
  · intro row hrow
    unfold DAO.upsert run_in_session
    simp only [hrow]
    refine ⟨trivial, trivial, ?_, ?_⟩
    · intro a hnm
      exact getattr_dictUpdate_not_mem _ _ _ hnm
    · simp

/-- C10: on `upsert`'s insert path, a binding for the primary-key attribute
inside the field mapping overrides the positional key argument — the
inserted row's primary key is the mapping's value, because
`row_data.update(fields)` runs after `row_data` is seeded with the key. -/
theorem C10_upsert_fields_override_key (d : DAO) (k v : Val) (f : Fields)
    (s : Store) (hnd : (f.map Prod.fst).Nodup)
    (hf : f.lookup d.primary_key_attribute_name = some v)
    (habs : sessionGet d s k = none) :
    getattr (DAO.upsert d k f s).value d.primary_key_attribute_name =
      some v := by
  unfold DAO.upsert run_in_session
  simp only [habs]
  exact getattr_dictUpdate_lookup _ _ _ _ hnd hf

/-- C6: `delete` on an absent key returns `false` and issues no write; on a
present key (in a store with distinct primary keys) it returns `true`,
removes the row, and a second `delete` of the same key returns `false` and
changes nothing. -/
theorem C6_delete_idempotent (d : DAO) (k : Val) (s : Store) :
    (sessionGet d s k = none →
      (DAO.delete d k s).value = false ∧ (DAO.delete d k s).store = s) ∧
    (∀ r, StoreKeysDistinct d s → sessionGet d s k = some r →
      (DAO.delete d k s).value = true ∧
      (DAO.delete d k s).store = removeFirst (pkMatches d k) s ∧
      sessionGet d (DAO.delete d k s).store k = none ∧
      (DAO.delete d k (DAO.delete d k s).store).value = false ∧
      (DAO.delete d k (DAO.delete d k s).store).store =
        (DAO.delete d k s).store) := by
  have delete_none : ∀ (t : Store), sessionGet d t k = none →
      (DAO.delete d k t).value = false ∧ (DAO.delete d k t).store = t := by
    intro t ht
    unfold DAO.delete run_in_session
    simp [ht]
  have delete_some : ∀ (t : Store) (r : Entity), sessionGet d t k = some r →
      (DAO.delete d k t).value = true ∧
      (DAO.delete d k t).store = removeFirst (pkMatches d k) t := by
    intro t r ht
    unfold DAO.delete run_in_session
    simp [ht]
  constructor
  · exact delete_none s
  · intro r hdist hsome
    obtain ⟨hval, hstore⟩ := delete_some s r hsome
    have hnone : sessionGet d (DAO.delete d k s).store k = none := by
      rw [hstore]
      exact sessionGet_removeFirst_none d k s hdist r hsome
    obtain ⟨hval2, hstore2⟩ := delete_none _ hnone
    exact ⟨hval, hstore, hnone, hval2, hstore2⟩

/-- Value returned by `get` is exactly the primary-key lookup. -/
theorem get_value (d : DAO) (k : Val) (s : Store) :
    (DAO.get d k s).value = sessionGet d s k := by
  unfold DAO.get run_in_session
  cases h : sessionGet d s k <;> simp [h]

/-- `get` is read-only: the store is unchanged. -/
theorem get_store (d : DAO) (k : Val) (s : Store) :
    (DAO.get d k s).store = s := by
  unfold DAO.get run_in_session
  cases h : sessionGet d s k <;> simp [h]

/-- When the row a later `get` finds in a store is the detached snapshot
`e`, mutating the snapshot neither changes that outcome nor makes the `get`
return the mutated value. -/
theorem get_immune (d : DAO) (k' : Val) (st : Store) (e : Entity)
    (f : Entity → Entity) (hsg : sessionGet d st k' = some e)
    (hf : f e ≠ e) :
    (DAO.get d k' st).value = some e ∧
    (DAO.get d k' st).value ≠ some (f e) := by
  have hv : (DAO.get d k' st).value = some e := by
    rw [get_value, hsg]
  refine ⟨hv, ?_⟩
  rw [hv]
  intro hc
  exact hf (Option.some_inj.mp hc.symm)

/-- Lookup skips a prefix in which nothing matches. -/
theorem find?_append_none {α : Type} (p : α → Bool) (l1 l2 : List α)
    (h : l1.find? p = none) : (l1 ++ l2).find? p = l2.find? p := by
  induction l1 with
  | nil => rfl
  | cons x xs ih =>
    cases hx : p x
    · rw [List.find?_cons_of_neg _ (by simp [hx])] at h
      rw [List.cons_append, List.find?_cons_of_neg _ (by simp [hx])]
      exact ih h
    · rw [List.find?_cons_of_pos _ hx] at h
      cases h

/-- Rewriting the first matching row in place: when its image still
matches, the lookup finds exactly the rewritten row. -/
theorem find?_updateFirst {α : Type} (p : α → Bool) (g : α → α)
    (s : List α) (row : α) (h : s.find? p = some row)
    (hg : p (g row) = true) :
    (updateFirst p g s).find? p = some (g row) := by
  induction s with
  | nil => cases h
  | cons x xs ih =>
    cases hx : p x
    · have h' : xs.find? p = some row := by
        rwa [List.find?_cons_of_neg _ (by simp [hx])] at h
      have hu : updateFirst p g (x :: xs) = x :: updateFirst p g xs := by
        simp [updateFirst, hx]
      rw [hu, List.find?_cons_of_neg _ (by simp [hx])]
      exact ih h'
    · have hxrow : x = row := by
        rwa [List.find?_cons_of_pos _ hx, Option.some_inj] at h
      subst hxrow
      have hu : updateFirst p g (x :: xs) = g x :: xs := by
        simp [updateFirst, hx]
      rw [hu]
      exact List.find?_cons_of_pos _ hg

/-- In a store with distinct primary keys, the lookup of a member row's
key finds precisely that row. -/
theorem sessionGet_of_mem_distinct (d : DAO) (s : Store) (e : Entity)
    (k' : Val) (hdist : StoreKeysDistinct d s) (hmem : e ∈ s)
    (hk : getattr e d.primary_key_attribute_name = some k') :
    sessionGet d s k' = some e := by
  induction s with
  | nil => cases hmem
  | cons x xs ih =>
    unfold StoreKeysDistinct at hdist
    rw [List.pairwise_cons] at hdist
    rcases List.mem_cons.mp hmem with rfl | hmem'
    · have hp : pkMatches d k' e = true := by
        unfold pkMatches
        rw [hk]
        simp
      unfold sessionGet
      exact List.find?_cons_of_pos _ hp
    · have hx : pkMatches d k' x = false := by
        have hne := hdist.1 e hmem'
        unfold pkMatches
        rw [Bool.eq_false_iff]
        intro hcontra
        exact hne (by rw [beq_iff_eq.mp hcontra, hk])
      unfold sessionGet
      rw [List.find?_cons_of_neg _ (by simp [hx])]
      exact ih hdist.2 hmem'

/-- Rows returned by `list` are rows of the store, in store order. -/
theorem list_value_sublist (d : DAO) (limit offset : Int) (s : Store) :
    (DAO.list d limit offset s).value.Sublist s := by
  rw [list_value]
  have h1 : (if offset > 0 then s.drop offset.toNat else s).Sublist s := by
    split
    · exact List.drop_sublist _ _
    · exact List.Sublist.refl s
  split
  · exact (List.take_sublist _ _).trans h1
  · exact h1

/-- C5: every entity returned by `get`, `list`, `create`, `update` or
`upsert` is expunged (detached) before being returned, and mutating any
such returned snapshot afterwards has no effect on the store state a
subsequent `get` of the same key observes — for the results of each of the
five operations, the later `get` still returns the stored row and never
the mutated snapshot.  The `list` clause assumes distinct primary keys in
the store, the `create` clause a fresh key, and the `update`/`upsert`
clauses that the returned row still carries the operation's key, so that
"the same key" identifies the snapshot's row. -/
theorem C5_detachment (d : DAO) (k : Val) (limit offset : Int)
    (fields : Fields) (s : Store) :
    (∀ e, (DAO.get d k s).value = some e → e ∈ (DAO.get d k s).expunged) ∧
    (∀ r, r ∈ (DAO.list d limit offset s).value →
      r ∈ (DAO.list d limit offset s).expunged) ∧
    (DAO.create d fields s).value ∈ (DAO.create d fields s).expunged ∧
    (∀ e, (DAO.update d k fields s).value = some e →
      e ∈ (DAO.update d k fields s).expunged) ∧
    (DAO.upsert d k fields s).value ∈ (DAO.upsert d k fields s).expunged ∧
    (∀ (f : Entity → Entity) (e : Entity),
      (DAO.get d k s).value = some e → f e ≠ e →
      (DAO.get d k (DAO.get d k s).store).value = some e ∧
      (DAO.get d k (DAO.get d k s).store).value ≠ some (f e)) ∧
    (∀ (f : Entity → Entity) (e : Entity) (k' : Val),
      e ∈ (DAO.list d limit offset s).value → StoreKeysDistinct d s →
      getattr e d.primary_key_attribute_name = some k' → f e ≠ e →
      (DAO.get d k' (DAO.list d limit offset s).store).value = some e ∧
      (DAO.get d k' (DAO.list d limit offset s).store).value ≠ some (f e)) ∧
    (∀ (f : Entity → Entity) (k' : Val),
      sessionGet d s k' = none →
      getattr (DAO.create d fields s).value d.primary_key_attribute_name
        = some k' →
      f (DAO.create d fields s).value ≠ (DAO.create d fields s).value →
      (DAO.get d k' (DAO.create d fields s).store).value
        = some (DAO.create d fields s).value ∧
      (DAO.get d k' (DAO.create d fields s).store).value
        ≠ some (f (DAO.create d fields s).value)) ∧
    (∀ (f : Entity → Entity) (e : Entity),
      (DAO.update d k fields s).value = some e →
      getattr e d.primary_key_attribute_name = some k → f e ≠ e →
      (DAO.get d k (DAO.update d k fields s).store).value = some e ∧
      (DAO.get d k (DAO.update d k fields s).store).value ≠ some (f e)) ∧
    (∀ (f : Entity → Entity),
      getattr (DAO.upsert d k fields s).value d.primary_key_attribute_name
        = some k →
      f (DAO.upsert d k fields s).value ≠ (DAO.upsert d k fields s).value →
      (DAO.get d k (DAO.upsert d k fields s).store).value
        = some (DAO.upsert d k fields s).value ∧
      (DAO.get d k (DAO.upsert d k fields s).store).value
        ≠ some (f (DAO.upsert d k fields s).value)) := by
  refine ⟨?_, ?_, ?_, ?_, ?_, ?_, ?_, ?_, ?_, ?_⟩
  · intro e he
    rw [get_value] at he
    unfold DAO.get run_in_session
    simp [he]
  · intro r hr
    exact hr
  · simp [DAO.create, run_in_session]
  · intro e he
    unfold DAO.update run_in_session at he ⊢
    cases h : sessionGet d s k <;> simp [h] at he ⊢
    exact he.symm
  · unfold DAO.upsert run_in_session
    cases h : sessionGet d s k <;> simp [h]
  · intro f e he hf
    rw [get_value] at he
    rw [get_store]
    exact get_immune d k s e f he hf
  · intro f e k' hmem hdist hk hf
    have hmem' : e ∈ s := (list_value_sublist d limit offset s).subset hmem
    have hsg := sessionGet_of_mem_distinct d s e k' hdist hmem' hk
    have hstore : (DAO.list d limit offset s).store = s := rfl
    rw [hstore]
    exact get_immune d k' s e f hsg hf
  · intro f k' habs hk hf
    have hval : (DAO.create d fields s).value = fields := rfl
    have hstore : (DAO.create d fields s).store = s ++ [fields] := rfl
    rw [hval] at hk hf
    have hp : pkMatches d k' fields = true := by
      unfold pkMatches
      rw [hk]
      simp
    have hsg : sessionGet d (s ++ [fields]) k' = some fields := by
      unfold sessionGet at habs ⊢
      rw [find?_append_none _ _ _ habs]
      exact List.find?_cons_of_pos _ hp
    rw [hstore, hval]
    exact get_immune d k' (s ++ [fields]) fields f hsg hf
  · intro f e hupd hk hf
    cases hsg : sessionGet d s k with
    | none =>
      have hnone : (DAO.update d k fields s).value = none := by
        unfold DAO.update run_in_session
        simp [hsg]
      rw [hnone] at hupd
      cases hupd
    | some row =>
      have hval : (DAO.update d k fields s).value
          = some (dictUpdate row fields) := by
        unfold DAO.update run_in_session
        simp [hsg]
      have hstore : (DAO.update d k fields s).store
          = updateFirst (pkMatches d k) (fun r => dictUpdate r fields) s := by
        unfold DAO.update run_in_session
        simp [hsg]
      have he' : e = dictUpdate row fields := by
        rw [hval] at hupd
        exact (Option.some_inj.mp hupd).symm
      subst he'
      have hp : pkMatches d k (dictUpdate row fields) = true := by
        unfold pkMatches
        rw [hk]
        simp
      have hsg2 : sessionGet d ((DAO.update d k fields s).store) k
          = some (dictUpdate row fields) := by
        rw [hstore]
        exact find?_updateFirst (pkMatches d k)
          (fun r => dictUpdate r fields) s row hsg hp
      exact get_immune d k _ (dictUpdate row fields) f hsg2 hf
  · intro f hk hf
    cases hsg : sessionGet d s k with
    | none =>
      have hval : (DAO.upsert d k fields s).value
          = dictUpdate [(d.primary_key_attribute_name, k)] fields := by
        unfold DAO.upsert run_in_session
        simp [hsg]
      have hstore : (DAO.upsert d k fields s).store
          = s ++ [dictUpdate [(d.primary_key_attribute_name, k)] fields] := by
        unfold DAO.upsert run_in_session
        simp [hsg]
      have hp : pkMatches d k ((DAO.upsert d k fields s).value) = true := by
        unfold pkMatches
        rw [hk]
        simp
      have hsg2 : sessionGet d ((DAO.upsert d k fields s).store) k
          = some ((DAO.upsert d k fields s).value) := by
        rw [hstore]
        unfold sessionGet
        rw [find?_append_none _ _ _ hsg]
        rw [← hval]
        exact List.find?_cons_of_pos _ hp
      exact get_immune d k _ _ f hsg2 hf
    | some row =>
      have hval : (DAO.upsert d k fields s).value = dictUpdate row fields := by
        unfold DAO.upsert run_in_session
        simp [hsg]
      have hstore : (DAO.upsert d k fields s).store
          = updateFirst (pkMatches d k) (fun r => dictUpdate r fields) s := by
        unfold DAO.upsert run_in_session
        simp [hsg]
      have hp : pkMatches d k (dictUpdate row fields) = true := by
        unfold pkMatches
        rw [← hval, hk]
        simp
      have hsg2 : sessionGet d ((DAO.upsert d k fields s).store) k
          = some ((DAO.upsert d k fields s).value) := by
        rw [hstore, hval]
        exact find?_updateFirst (pkMatches d k)
          (fun r => dictUpdate r fields) s row hsg hp
      exact get_immune d k _ _ f hsg2 hf

/-- C3: the background runner of `_submit_background` resolves the returned
future to the submitted callable's result; if the callable raises, the error
is logged once with the originating DAO subclass's name and the error value,
and the same error is re-raised into the future. -/
theorem C3_background_error_reporting {α : Type} (d : DAO) (fn : SessME α)
    (s : Store) :
    (∀ e, (fn s).value = Except.error e →
      (submit_background d.className fn s).future = Except.error e ∧
      (submit_background d.className fn s).logged = [(d.className, e)]) ∧
    (∀ a, (fn s).value = Except.ok a →
      (submit_background d.className fn s).future = Except.ok a ∧
      (submit_background d.className fn s).logged = []) := by
  constructor
  · intro e he
    unfold submit_background run_in_session
    simp only [he]
    exact ⟨trivial, trivial⟩
  · intro a ha
    unfold submit_background run_in_session
    simp only [ha]
    exact ⟨trivial, trivial⟩

/-- C4: under arbitrary interleavings of concurrent first use, the
double-checked-lock initialization of the shared background executor
constructs exactly one executor — in every reachable state at most one
construction has happened, any thread that has returned has returned the
installed executor (and by then exactly one construction happened), and any
two threads that have returned got the same executor. -/
theorem C4_executor_singleton (cpu : Option Nat) (n : Nat) (s : ExecState)
    (h : Reachable cpu n s) :
    s.created ≤ 1 ∧
    (∀ i w, s.pcs.get? i = some (PC.ret w) →
      s.created = 1 ∧ s.exec = some w) ∧
    (∀ i j w w', s.pcs.get? i = some (PC.ret w) →
      s.pcs.get? j = some (PC.ret w') → w = w') := by
  have hi := dclInv_reachable h
  refine ⟨?_, ?_, ?_⟩
  · rcases hi.once with ⟨h0, _⟩ | ⟨h1, _⟩ <;> omega
  · intro i w hw
    have hex := hi.ret_exec i w hw
    rcases hi.once with ⟨_, hnone⟩ | ⟨h1, _⟩
    · rw [hnone] at hex
      cases hex
    · exact ⟨h1, hex⟩
  · intro i j w w' hw hw'
    have h1 := hi.ret_exec i w hw
    have h2 := hi.ret_exec j w' hw'
    rw [h1] at h2
    exact Option.some_inj.mp h2

/-- C9: the background executor is absent initially (lazy creation), any
installed executor has exactly `max(4, hostParallelism)` workers — at least
4, and equal to the host parallelism when that is larger — and once
installed it never changes for the rest of the run. -/
theorem C9_executor_sizing (cpu : Option Nat) (n : Nat) (s s' : ExecState)
    (hr : Reachable cpu n s) :
    (dclInit n).exec = none ∧
    max_workers cpu = max 4 (pyOr cpu) ∧
    4 ≤ max_workers cpu ∧
    (4 ≤ pyOr cpu → max_workers cpu = pyOr cpu) ∧
    (∀ w, s.exec = some w → w = max_workers cpu) ∧
    (∀ w, s.exec = some w → DCLStep cpu s s' → s'.exec = some w) := by
  have hi := dclInv_reachable hr
  refine ⟨rfl, rfl, le_max_left _ _, ?_, ?_, ?_⟩
  · intro h4
    exact max_eq_right h4
  · intro w hw
    rcases hi.once with ⟨_, hnone⟩ | ⟨_, hsome⟩
    · rw [hnone] at hw
      cases hw
    · rw [hsome] at hw
      exact (Option.some_inj.mp hw).symm
  · intro w hw hstep
    cases hstep with
    | fastHit i w' s hpc hex => exact hw
    | fastMiss i s hpc hex => exact hw
    | acquire i s hpc hl => exact hw
    | checkHit i w' s hpc hex => exact hw
    | checkMiss i s hpc hex => exact hw
    | createExec i s hpc =>
      have := hi.creating_none i hpc
      rw [this] at hw
      cases hw
    | releaseLock i s hpc => exact hw
    | readExec i w' s hpc hex => exact hw

/-- One thread running `_get_bg_executor` to completion: a concrete
interleaving witnessing reachability of `execFinal`. -/
theorem execFinal_reachable : Reachable none 1 execFinal := by
  have h1 : DCLStep none (dclInit 1)
      { exec := none, lock := false, created := 0, pcs := [PC.waitLock] } :=
    DCLStep.fastMiss 0 (dclInit 1) rfl rfl
  have h2 : DCLStep none
      { exec := none, lock := false, created := 0, pcs := [PC.waitLock] }
      { exec := none, lock := true, created := 0, pcs := [PC.held] } :=
    DCLStep.acquire 0 _ rfl rfl
  have h3 : DCLStep none
      { exec := none, lock := true, created := 0, pcs := [PC.held] }
      { exec := none, lock := true, created := 0, pcs := [PC.creating] } :=
    DCLStep.checkMiss 0 _ rfl rfl
  have h4 : DCLStep none
      { exec := none, lock := true, created := 0, pcs := [PC.creating] }
      { exec := some 4, lock := true, created := 1, pcs := [PC.release] } :=
    DCLStep.createExec 0 _ rfl
  have h5 : DCLStep none
      { exec := some 4, lock := true, created := 1, pcs := [PC.release] }
      { exec := some 4, lock := false, created := 1, pcs := [PC.reading] } :=
    DCLStep.releaseLock 0 _ rfl
  have h6 : DCLStep none
      { exec := some 4, lock := false, created := 1, pcs := [PC.reading] }
      execFinal :=
    DCLStep.readExec 0 4 _ rfl rfl
  exact Relation.ReflTransGen.head h1 (Relation.ReflTransGen.head h2
    (Relation.ReflTransGen.head h3 (Relation.ReflTransGen.head h4
      (Relation.ReflTransGen.head h5 (Relation.ReflTransGen.single h6)))))

/-- Witness for C2: concrete runs of both `upsert` paths. -/
theorem C2_witness :
    sessionGet dao0 [] 5 = none ∧
    (DAO.upsert dao0 5 [("name", 7)] []).value = [("id", 5), ("name", 7)] ∧
    getattr (DAO.upsert dao0 5 [("name", 7)] []).value "id" = some 5 ∧
    sessionGet dao0 [[("id", 5), ("name", 1)]] 5 = some [("id", 5), ("name", 1)] ∧
    (DAO.upsert dao0 5 [("name", 7)] [[("id", 5), ("name", 1)]]).value
      = [("id", 5), ("name", 7)] := by
  have h1 := (C2_upsert_semantics dao0 5 [("name", 7)] []).1 (by decide)
  have h2 := (C2_upsert_semantics dao0 5 [("name", 7)]
      [[("id", 5), ("name", 1)]]).2 [("id", 5), ("name", 1)] (by decide)
  refine ⟨by decide, ?_, ?_, by decide, ?_⟩
  · rw [h1.1]
    decide
  · exact h1.2.2.1 (by decide)
  · rw [h2.1]
    decide

/-- Witness for C3: a submitted callable that raises is logged with the
DAO subclass's name and re-raised into the future. -/
theorem C3_witness :
    (failOp []).value = Except.error "boom" ∧
    (submit_background dao0.className failOp []).future = Except.error "boom" ∧
    (submit_background dao0.className failOp []).logged = [("UserDAO", "boom")] := by
  have h := (C3_background_error_reporting dao0 failOp []).1 "boom" rfl
  exact ⟨rfl, h.1, h.2⟩

/-- Witness for C4: the single-thread run created exactly one executor and
returned it. -/
theorem C4_witness :
    Reachable none 1 execFinal ∧ execFinal.created ≤ 1 ∧
    execFinal.created = 1 ∧ execFinal.exec = some 4 := by
  have h := C4_executor_singleton none 1 execFinal execFinal_reachable
  have h2 := h.2.1 0 4 rfl
  exact ⟨execFinal_reachable, h.1, h2.1, h2.2⟩

/-- Witness for C5: concrete snapshot mutations, for each of the five
operations, that a later `get` of the same key does not observe. -/
theorem C5_witness :
    (DAO.get dao0 1 [[("id", 1), ("x", 0)]]).value = some [("id", 1), ("x", 0)] ∧
    bumpX [("id", 1), ("x", 0)] ≠ [("id", 1), ("x", 0)] ∧
    [("id", 1), ("x", 0)] ∈ (DAO.get dao0 1 [[("id", 1), ("x", 0)]]).expunged ∧
    (DAO.get dao0 1 (DAO.get dao0 1 [[("id", 1), ("x", 0)]]).store).value
      = some [("id", 1), ("x", 0)] ∧
    (DAO.get dao0 1 (DAO.get dao0 1 [[("id", 1), ("x", 0)]]).store).value
      ≠ some (bumpX [("id", 1), ("x", 0)]) ∧
    (DAO.get dao0 1 (DAO.list dao0 100 0 [[("id", 1), ("x", 0)]]).store).value
      = some [("id", 1), ("x", 0)] ∧
    (DAO.get dao0 1 (DAO.list dao0 100 0 [[("id", 1), ("x", 0)]]).store).value
      ≠ some (bumpX [("id", 1), ("x", 0)]) ∧
    (DAO.get dao0 2 (DAO.create dao0 [("id", 2), ("x", 0)]
        [[("id", 1), ("x", 0)]]).store).value
      = some (DAO.create dao0 [("id", 2), ("x", 0)]
          [[("id", 1), ("x", 0)]]).value ∧
    (DAO.get dao0 2 (DAO.create dao0 [("id", 2), ("x", 0)]
        [[("id", 1), ("x", 0)]]).store).value
      ≠ some (bumpX (DAO.create dao0 [("id", 2), ("x", 0)]
          [[("id", 1), ("x", 0)]]).value) ∧
    (DAO.get dao0 1 (DAO.update dao0 1 [("x", 5)]
        [[("id", 1), ("x", 0)]]).store).value = some [("id", 1), ("x", 5)] ∧
    (DAO.get dao0 1 (DAO.update dao0 1 [("x", 5)]
        [[("id", 1), ("x", 0)]]).store).value
      ≠ some (bumpX [("id", 1), ("x", 5)]) ∧
    (DAO.get dao0 1 (DAO.upsert dao0 1 [("x", 5)]
        [[("id", 1), ("x", 0)]]).store).value
      = some (DAO.upsert dao0 1 [("x", 5)] [[("id", 1), ("x", 0)]]).value ∧
    (DAO.get dao0 1 (DAO.upsert dao0 1 [("x", 5)]
        [[("id", 1), ("x", 0)]]).store).value
      ≠ some (bumpX (DAO.upsert dao0 1 [("x", 5)]
          [[("id", 1), ("x", 0)]]).value) := by
  have hc := C5_detachment dao0 1 100 0 [("x", 5)] [[("id", 1), ("x", 0)]]
  have hcC := C5_detachment dao0 1 100 0 [("id", 2), ("x", 0)]
    [[("id", 1), ("x", 0)]]
  have hval : (DAO.get dao0 1 [[("id", 1), ("x", 0)]]).value
      = some [("id", 1), ("x", 0)] := by decide
  have hb : bumpX [("id", 1), ("x", 0)] ≠ [("id", 1), ("x", 0)] := by decide
  have hdist : StoreKeysDistinct dao0 [[("id", 1), ("x", 0)]] := by
    unfold StoreKeysDistinct
    decide
  have hget := hc.2.2.2.2.2.1 bumpX [("id", 1), ("x", 0)] hval hb
  have hlist := hc.2.2.2.2.2.2.1 bumpX [("id", 1), ("x", 0)] 1 (by decide)
    hdist (by decide) hb
  have hcreate := hcC.2.2.2.2.2.2.2.1 bumpX 2 (by decide) (by decide)
    (by decide)
  have hupdate := hc.2.2.2.2.2.2.2.2.1 bumpX [("id", 1), ("x", 5)]
    (by decide) (by decide) (by decide)
  have hupsert := hc.2.2.2.2.2.2.2.2.2 bumpX (by decide) (by decide)
  exact ⟨hval, hb, hc.1 [("id", 1), ("x", 0)] hval, hget.1, hget.2,
    hlist.1, hlist.2, hcreate.1, hcreate.2, hupdate.1, hupdate.2,
    hupsert.1, hupsert.2⟩

/-- Witness for C6: concrete absent-key and present-key deletions. -/
theorem C6_witness :
    (sessionGet dao0 [[("id", 1)], [("id", 2)]] 3 = none ∧
     (DAO.delete dao0 3 [[("id", 1)], [("id", 2)]]).value = false) ∧
    (StoreKeysDistinct dao0 [[("id", 1)], [("id", 2)]] ∧
     sessionGet dao0 [[("id", 1)], [("id", 2)]] 1 = some [("id", 1)] ∧
     (DAO.delete dao0 1 [[("id", 1)], [("id", 2)]]).value = true ∧
     (DAO.delete dao0 1
       (DAO.delete dao0 1 [[("id", 1)], [("id", 2)]]).store).value = false) := by
  have habs : sessionGet dao0 [[("id", 1)], [("id", 2)]] 3 = none := by decide
  have hsome : sessionGet dao0 [[("id", 1)], [("id", 2)]] 1 = some [("id", 1)] := by
    decide
  have hdist : StoreKeysDistinct dao0 [[("id", 1)], [("id", 2)]] := by
    unfold StoreKeysDistinct
    decide
  have h1 := (C6_delete_idempotent dao0 3 [[("id", 1)], [("id", 2)]]).1 habs
  have h2 := (C6_delete_idempotent dao0 1 [[("id", 1)], [("id", 2)]]).2
    [("id", 1)] hdist hsome
  exact ⟨⟨habs, h1.1⟩, hdist, hsome, h2.1, h2.2.2.2.1⟩

/-- Witness for C7: positive limit and offset on a three-row store. -/
theorem C7_witness :
    ((0 : Int) < 1 ∧ (0 : Int) < 1) ∧
    (DAO.list dao0 1 1 [[("id", 1)], [("id", 2)], [("id", 3)]]).value
      = [[("id", 2)]] := by
  have h := (C7_list_pagination dao0 1 1
      [[("id", 1)], [("id", 2)], [("id", 3)]]).2.2.2.1 ⟨by decide, by decide⟩
  refine ⟨⟨by decide, by decide⟩, ?_⟩
  rw [h]
  decide

/-- Witness for C9: the single-thread run installed a four-worker executor
(`max(4, 1)` with one host CPU reported as `None`). -/
theorem C9_witness :
    Reachable none 1 execFinal ∧ (dclInit 1).exec = none ∧
    max_workers none = 4 ∧ 4 ≤ max_workers none ∧ (4 : Nat) = max_workers none := by
  have h := C9_executor_sizing none 1 execFinal execFinal execFinal_reachable
  exact ⟨execFinal_reachable, h.1, by decide, h.2.2.1, h.2.2.2.2.1 4 rfl⟩

/-- Witness for C10: the field mapping's `id` binding (99) overrides the
positional key (1) on the insert path. -/
theorem C10_witness :
    ((([("id", (99 : Val))] : Fields).map Prod.fst).Nodup ∧
     ([("id", (99 : Val))] : Fields).lookup "id" = some 99 ∧
     sessionGet dao0 [] 1 = none) ∧
    getattr (DAO.upsert dao0 1 [("id", 99)] []).value "id" = some 99 :=
  ⟨⟨by decide, by decide, by decide⟩,
   C10_upsert_fields_override_key dao0 1 99 [("id", 99)] [] (by decide)
     (by decide) (by decide)⟩

end DAOSpec
